import Mathlib

set_option maxRecDepth 8000

/-
Verification development for the pdf-editor save/parse routes.

Numbers are modelled as exact rationals (ℚ).  Where the JavaScript source
performs a Number.isFinite check, the check is always true for a rational
and the model notes this in a comment.  The one function whose behaviour
on non-finite inputs is itself under scrutiny (deriveParagraphLineHeight)
is modelled over an explicit JS-number type with NaN and signed infinities.
-/

namespace PdfEditor

/-- The floor of a rational, computed by floor division of the numerator by the
(positive) denominator. -/
def ratFloor (q : ℚ) : ℤ := Int.fdiv q.num q.den

/-- JS Math.round: round half toward positive infinity. -/
def jsRound (q : ℚ) : ℤ := ratFloor (q + 1/2)

/-- JS whitespace characters removed by String.prototype.trim (ASCII range). -/
def isJsWhitespace (c : Char) : Bool :=
  c = ' ' || c = '\t' || c = '\n' || c = '\r' || c = '\x0b' || c = '\x0c'

/-- JS String.prototype.trim. -/
def jsTrim (s : String) : String :=
  String.mk ((s.toList.dropWhile isJsWhitespace).reverse.dropWhile isJsWhitespace).reverse

/-- JS String.prototype.toLowerCase on ASCII data. -/
def jsToLower (s : String) : String := String.mk (s.toList.map Char.toLower)

/-- Whether the first list is a prefix of the second. -/
def prefixOfChars : List Char → List Char → Bool
  | [], _ => true
  | _ :: _, [] => false
  | a :: as, b :: bs => a == b && prefixOfChars as bs

/-- Whether the pattern occurs as a contiguous run anywhere in the list. -/
def containsChars (pat : List Char) : List Char → Bool
  | [] => prefixOfChars pat []
  | c :: tl => prefixOfChars pat (c :: tl) || containsChars pat tl

/-- JS String.prototype.includes: substring containment. -/
def containsSubstring (s pat : String) : Bool := containsChars pat.toList s.toList

/-- JS String.prototype.endsWith. -/
def jsEndsWith (s post : String) : Bool :=
  prefixOfChars post.toList.reverse s.toList.reverse

/-- text.replace(with the global CRLF regex, a newline). -/
def replaceCRLFChars : List Char → List Char
  | '\r' :: '\n' :: rest => '\n' :: replaceCRLFChars rest
  | c :: rest => c :: replaceCRLFChars rest
  | [] => []

/-- The CRLF normalization applied to overlay text before drawing. -/
def replaceCRLF (s : String) : String := String.mk (replaceCRLFChars s.toList)

/-- lines.join(with a newline separator). -/
def joinLines : List String → String
  | [] => ""
  | [s] => s
  | s :: rest => s ++ "\n" ++ joinLines rest

/-- clamp01 from the save route; Number.isFinite is always true for a rational. -/
def clamp01 (value : ℚ) : ℚ := min 1 (max 0 value)

/-- normalizeRotationSteps: ((Math.round(value / 90) % 4) + 4) % 4.
JS % is the truncated remainder, i.e. Int.tmod; the final result is in [0, 3]. -/
def normalizeRotationSteps (value : ℚ) : ℕ :=
  ((Int.tmod (jsRound (value / 90)) 4 + 4) % 4).toNat

structure NormalizedPoint where
  x : ℚ
  y : ℚ
deriving DecidableEq

/-- rotateNormalizedPoint from the save route: quarter-turn rotations of the unit square. -/
def rotateNormalizedPoint (point : NormalizedPoint) (steps : ℕ) : NormalizedPoint :=
  match steps with
  | 1 => ⟨1 - point.y, point.x⟩
  | 2 => ⟨1 - point.x, 1 - point.y⟩
  | 3 => ⟨point.y, 1 - point.x⟩
  | _ => point

structure NormalizedBounds where
  minX : ℚ
  minY : ℚ
  width : ℚ
  height : ℚ
deriving DecidableEq

/-- Math.min over an array; every call site passes a nonempty list of corner coordinates. -/
def listMin : List ℚ → ℚ
  | [] => 0
  | x :: xs => xs.foldl min x

/-- Math.max over an array; every call site passes a nonempty list of corner coordinates. -/
def listMax : List ℚ → ℚ
  | [] => 0
  | x :: xs => xs.foldl max x

/-- boundsFromPoints from the save route: the axis-aligned bounding box of a set of points. -/
def boundsFromPoints (points : List NormalizedPoint) : NormalizedBounds :=
  let xs := points.map (fun pt => pt.x)
  let ys := points.map (fun pt => pt.y)
  let minX := listMin xs
  let minY := listMin ys
  let maxX := listMax xs
  let maxY := listMax ys
  ⟨minX, minY, max 0 (maxX - minX), max 0 (maxY - minY)⟩

/-- The four corners of an axis-aligned rectangle, in the order used by both
deriveBounds and computeMaskBoundsFromOriginal. -/
def rectCorners (left top width height : ℚ) : List NormalizedPoint :=
  [⟨left, top⟩, ⟨left + width, top⟩, ⟨left + width, top + height⟩, ⟨left, top + height⟩]

/-- Rotating every corner of a rectangle by a number of quarter-turn steps and
taking the axis-aligned bounding box of the results. -/
def rotateRectBounds (left top width height : ℚ) (steps : ℕ) : NormalizedBounds :=
  boundsFromPoints ((rectCorners left top width height).map
    (fun p => rotateNormalizedPoint p steps))

/-- OverlayBounds from pdf-export-types: the captured ratio snapshot of an overlay. -/
structure OverlayBounds where
  leftRatio : ℚ
  topRatio : ℚ
  widthRatio : ℚ
  heightRatio : ℚ
  captureRotation : ℚ
deriving DecidableEq

/-- TextOverlayExport from pdf-export-types. -/
structure TextOverlayExport where
  text : String
  left : ℚ
  top : ℚ
  width : ℚ
  height : ℚ
  fontSize : ℚ
  lineHeight : ℚ
  fontFamily : String
  fontWeight : String
  fill : String
  opacity : ℚ
  originalBounds : Option OverlayBounds
deriving DecidableEq

/-- PageExportPayload from pdf-export-types.  The payload type declares all
numeric fields as required numbers, so the defensive nullish fallbacks of the
route (rotation ?? 0, captureRotation ?? 0) are the identity here. -/
structure PageExportPayload where
  pageNumber : ℚ
  width : ℚ
  height : ℚ
  rotation : ℚ
  overlays : List TextOverlayExport
deriving DecidableEq

/-- viewportWidth in deriveBounds: pagePayload.width || pageWidth.
The JS || operator falls back exactly when pagePayload.width is 0. -/
def viewportWidth (pagePayload : PageExportPayload) (pageWidth : ℚ) : ℚ :=
  if pagePayload.width = 0 then pageWidth else pagePayload.width

/-- viewportHeight in deriveBounds: pagePayload.height || pageHeight. -/
def viewportHeight (pagePayload : PageExportPayload) (pageHeight : ℚ) : ℚ :=
  if pagePayload.height = 0 then pageHeight else pagePayload.height

/-- The leftRatio computed by deriveBounds. -/
def derivedLeftRatio (overlay : TextOverlayExport) (pagePayload : PageExportPayload)
    (pageWidth : ℚ) : ℚ :=
  clamp01 (overlay.left / viewportWidth pagePayload pageWidth)

/-- The topRatio computed by deriveBounds. -/
def derivedTopRatio (overlay : TextOverlayExport) (pagePayload : PageExportPayload)
    (pageHeight : ℚ) : ℚ :=
  clamp01 (overlay.top / viewportHeight pagePayload pageHeight)

/-- The widthRatio computed by deriveBounds: the overlay pixel width divided by
the viewport width, clamped to [0, 1]. -/
def derivedWidthRatio (overlay : TextOverlayExport) (pagePayload : PageExportPayload)
    (pageWidth : ℚ) : ℚ :=
  clamp01 (overlay.width / viewportWidth pagePayload pageWidth)

/-- The heightRatio computed by deriveBounds. -/
def derivedHeightRatio (overlay : TextOverlayExport) (pagePayload : PageExportPayload)
    (pageHeight : ℚ) : ℚ :=
  clamp01 (overlay.height / viewportHeight pagePayload pageHeight)

/-- The base points computed by deriveBounds: the corners of the ratio rectangle,
un-rotated by the inverse of the page rotation when that rotation is nonzero. -/
def derivedBasePoints (overlay : TextOverlayExport) (pagePayload : PageExportPayload)
    (pageWidth pageHeight : ℚ) : List NormalizedPoint :=
  let rotationSteps := normalizeRotationSteps pagePayload.rotation
  let inverseSteps := (4 - rotationSteps) % 4
  let rotatedPoints := rectCorners
    (derivedLeftRatio overlay pagePayload pageWidth)
    (derivedTopRatio overlay pagePayload pageHeight)
    (derivedWidthRatio overlay pagePayload pageWidth)
    (derivedHeightRatio overlay pagePayload pageHeight)
  if inverseSteps = 0 then rotatedPoints
  else rotatedPoints.map (fun point => rotateNormalizedPoint point inverseSteps)

/-- The page-space width computed by deriveBounds: normalized.width * pageWidth. -/
def pageSpaceWidth (overlay : TextOverlayExport) (pagePayload : PageExportPayload)
    (pageWidth pageHeight : ℚ) : ℚ :=
  (boundsFromPoints (derivedBasePoints overlay pagePayload pageWidth pageHeight)).width * pageWidth

/-- The page-space height computed by deriveBounds: normalized.height * pageHeight. -/
def pageSpaceHeight (overlay : TextOverlayExport) (pagePayload : PageExportPayload)
    (pageWidth pageHeight : ℚ) : ℚ :=
  (boundsFromPoints (derivedBasePoints overlay pagePayload pageWidth pageHeight)).height * pageHeight

structure DerivedBounds where
  rectX : ℚ
  rectY : ℚ
  width : ℚ
  height : ℚ
  baselineY : ℚ
  fontSize : ℚ
deriving DecidableEq

/-- deriveBounds from the save route, returning none where the source returns null. -/
def deriveBounds (overlay : TextOverlayExport) (pagePayload : PageExportPayload)
    (pageWidth pageHeight : ℚ) : Option DerivedBounds :=
  if viewportWidth pagePayload pageWidth ≤ 0 ∨ viewportHeight pagePayload pageHeight ≤ 0 then
    none
  else if derivedWidthRatio overlay pagePayload pageWidth ≤ 0 ∨
      derivedHeightRatio overlay pagePayload pageHeight ≤ 0 then
    none
  else
    let normalized := boundsFromPoints (derivedBasePoints overlay pagePayload pageWidth pageHeight)
    let left := normalized.minX * pageWidth
    let top := normalized.minY * pageHeight
    let width := normalized.width * pageWidth
    let height := normalized.height * pageHeight
    if width ≤ 0 ∨ height ≤ 0 then
      none
    else
      let rectY := pageHeight - (top + height)
      let verticalScale := pageHeight / viewportHeight pagePayload pageHeight
      let scaled := overlay.fontSize * verticalScale
      let scaledFontSize := max (1/2) (if scaled = 0 then 12 else scaled)
      let baselineY := pageHeight - (top + scaledFontSize)
      some ⟨left, rectY, width, height, baselineY, scaledFontSize⟩

structure MaskBounds where
  rectX : ℚ
  rectY : ℚ
  width : ℚ
  height : ℚ
deriving DecidableEq

/-- clampRatio inside computeMaskBoundsFromOriginal. -/
def clampRatio (value : ℚ) : ℚ := min 1 (max 0 value)

/-- computeMaskBoundsFromOriginal from the save route.  The Number.isFinite
check on the four stored ratios is always true for rationals. -/
def computeMaskBoundsFromOriginal (overlay : TextOverlayExport)
    (pagePayload : PageExportPayload) (pageWidth pageHeight : ℚ) : Option MaskBounds :=
  match overlay.originalBounds with
  | none => none
  | some original =>
    let rotationSteps := normalizeRotationSteps pagePayload.rotation
    let captureSteps := normalizeRotationSteps original.captureRotation
    let rotationDelta := (rotationSteps + 4 - captureSteps) % 4
    let basePoints : List NormalizedPoint :=
      [⟨clampRatio original.leftRatio, clampRatio original.topRatio⟩,
       ⟨clampRatio (original.leftRatio + original.widthRatio), clampRatio original.topRatio⟩,
       ⟨clampRatio (original.leftRatio + original.widthRatio),
        clampRatio (original.topRatio + original.heightRatio)⟩,
       ⟨clampRatio original.leftRatio, clampRatio (original.topRatio + original.heightRatio)⟩]
    let rotatedPoints :=
      if rotationDelta = 0 then basePoints
      else basePoints.map (fun point => rotateNormalizedPoint point rotationDelta)
    let normalized := boundsFromPoints rotatedPoints
    let width := normalized.width * pageWidth
    let height := normalized.height * pageHeight
    if width ≤ 0 ∨ height ≤ 0 then none
    else
      let left := normalized.minX * pageWidth
      let top := normalized.minY * pageHeight
      let rectY := pageHeight - (top + height)
      some ⟨left, rectY, width, height⟩

/-- The numeric value of one hexadecimal digit, matching the character class [0-9a-fA-F]. -/
def hexDigitVal (c : Char) : Option ℕ :=
  if '0' ≤ c ∧ c ≤ '9' then some (c.toNat - Char.toNat '0')
  else if 'a' ≤ c ∧ c ≤ 'f' then some (c.toNat - Char.toNat 'a' + 10)
  else if 'A' ≤ c ∧ c ≤ 'F' then some (c.toNat - Char.toNat 'A' + 10)
  else none

/-- parseInt(match[1], 16) for a match of ([0-9a-f]{6}): exactly six hex digits. -/
def parseSixHexChars : List Char → Option ℕ
  | [c1, c2, c3, c4, c5, c6] => do
    let v1 ← hexDigitVal c1
    let v2 ← hexDigitVal c2
    let v3 ← hexDigitVal c3
    let v4 ← hexDigitVal c4
    let v5 ← hexDigitVal c5
    let v6 ← hexDigitVal c6
    some (((((v1 * 16 + v2) * 16 + v3) * 16 + v4) * 16 + v5) * 16 + v6)
  | _ => none

/-- The optional leading hash of the fill regex.  A hash is not a hexadecimal
digit, so consuming a leading hash when present is equivalent to the regex's
optional group. -/
def stripHash : List Char → List Char
  | '#' :: rest => rest
  | cs => cs

/-- The fill regex applied to a string: an optional leading hash followed by
exactly six hex digits, whose value is parseInt(digits, 16). -/
def parseSixHex (s : String) : Option ℕ := parseSixHexChars (stripHash s.toList)

structure RgbColor where
  r : ℚ
  g : ℚ
  b : ℚ
deriving DecidableEq

/-- hexToRgb from the save route: none models an undefined or null input. -/
def hexToRgb (input : Option String) : RgbColor :=
  match parseSixHex (jsTrim (input.getD "")) with
  | none => ⟨0, 0, 0⟩
  | some value =>
    ⟨((value / 65536 % 256 : ℕ) : ℚ) / 255,
     ((value / 256 % 256 : ℕ) : ℚ) / 255,
     ((value % 256 : ℕ) : ℚ) / 255⟩

/-- The claim's description of a valid fill: six hexadecimal digits optionally
preceded by a hash sign.  Stated from the specification's words, for
comparison with the implementation's parseSixHex. -/
def isSixHexForm (s : String) : Bool :=
  (stripHash s.toList).length = 6 &&
    (stripHash s.toList).all (fun c => (hexDigitVal c).isSome)

/-- The six standard fonts the save route can embed. -/
inductive StandardFont where
  | timesRoman
  | timesRomanBold
  | helvetica
  | helveticaBold
  | courier
  | courierBold
deriving DecidableEq

/-- One row of FONT_TABLE: the alternation branches of the case-insensitive
regex, with the normal and bold font of the class. -/
structure FontTableEntry where
  pats : List String
  normal : StandardFont
  bold : StandardFont

/-- FONT_TABLE from the save route. -/
def FONT_TABLE : List FontTableEntry :=
  [⟨["times", "georgia", "palatino"], .timesRoman, .timesRomanBold⟩,
   ⟨["helvetica", "arial", "avenir", "lato"], .helvetica, .helveticaBold⟩,
   ⟨["courier", "mono"], .courier, .courierBold⟩]

/-- pickStandardFont from the save route; an empty family string is falsy in JS. -/
def pickStandardFont (family : String) (weight : String) : StandardFont :=
  if family ≠ "" then
    match FONT_TABLE.find? (fun item => item.pats.any
        (fun pat => containsSubstring (jsToLower family) pat)) with
    | some entry => if weight = "bold" then entry.bold else entry.normal
    | none => if weight = "bold" then .helveticaBold else .helvetica
  else if weight = "bold" then .helveticaBold else .helvetica

/-- One drawing primitive handed to the document library by applyOverlaysToPage. -/
inductive DrawInstruction where
  | rect (x y width height : ℚ) (color : RgbColor) (opacity : ℚ)
  | text (content : String) (x y size lineHeight maxWidth : ℚ)
      (font : StandardFont) (color : RgbColor)
deriving DecidableEq

/-- The loop body of applyOverlaysToPage for a single overlay: the drawing
instructions it emits (empty where the source does continue). -/
def overlayInstructions (overlay : TextOverlayExport) (pagePayload : PageExportPayload)
    (pageWidth pageHeight : ℚ) : List DrawInstruction :=
  if jsTrim overlay.text = "" then []
  else
    match deriveBounds overlay pagePayload pageWidth pageHeight with
    | none => []
    | some bounds =>
      let maskBounds := (computeMaskBoundsFromOriginal overlay pagePayload pageWidth
        pageHeight).getD ⟨bounds.rectX, bounds.rectY, bounds.width, bounds.height⟩
      let fontWeight := if overlay.fontWeight = "bold" then "bold" else "normal"
      let font := pickStandardFont overlay.fontFamily fontWeight
      let lineHeightRat := if overlay.lineHeight > 0 then overlay.lineHeight else 1.2
      [.rect maskBounds.rectX maskBounds.rectY maskBounds.width maskBounds.height ⟨1, 1, 1⟩ 1,
       .text (replaceCRLF overlay.text) bounds.rectX bounds.baselineY bounds.fontSize
         (bounds.fontSize * lineHeightRat) bounds.width font (hexToRgb (some overlay.fill))]

/-- applyOverlaysToPage from the save route: the instructions drawn on one page
together with the modified flag.  The flag becomes true exactly when an
overlay's instructions were emitted. -/
def applyOverlaysToPage (pagePayload : PageExportPayload) (pageWidth pageHeight : ℚ) :
    List DrawInstruction × Bool :=
  if pagePayload.overlays.isEmpty then ([], false)
  else
    pagePayload.overlays.foldl
      (fun acc overlay =>
        let contrib := overlayInstructions overlay pagePayload pageWidth pageHeight
        (acc.1 ++ contrib, acc.2 || !contrib.isEmpty))
      ([], false)

/-- The page loop of the save route's POST handler, after the payload pages have
been sorted by page number: each payload page with a finite page number is
applied to the document page at index max(0, floor(pageNumber - 1)), when that
page exists.  Document pages are given by their intrinsic width and height.
Number.isFinite(pageNumber) is always true for a rational. -/
def processPages (pages : List PageExportPayload) (docPages : List (ℚ × ℚ)) :
    List DrawInstruction × Bool :=
  pages.foldl
    (fun acc pagePayload =>
      let pageIndex := (max 0 (ratFloor (pagePayload.pageNumber - 1))).toNat
      match docPages.get? pageIndex with
      | none => acc
      | some dims =>
        let res := applyOverlaysToPage pagePayload dims.1 dims.2
        (acc.1 ++ res.1, acc.2 || res.2))
    ([], false)

/-! Parse route: color conversion. -/

def COLOR_FALLBACK : String := "#1a1a1a"

def DEFAULT_LINE_HEIGHT : ℚ := 1.2

def MIN_LINE_HEIGHT : ℚ := 1

def MAX_LINE_HEIGHT : ℚ := 3

def BLOCK_WIDTH_CALIBRATION : ℚ := 4

/-- A single lowercase hexadecimal digit character. -/
def hexDigitChar (n : ℕ) : Char :=
  if n < 10 then Char.ofNat (Char.toNat '0' + n)
  else Char.ofNat (Char.toNat 'a' + (n - 10))

/-- clamped.toString(16).padStart(2, "0") for an integer clamped to [0, 255]:
two lowercase hexadecimal digits. -/
def twoDigitHex (n : ℕ) : String := String.mk [hexDigitChar (n / 16), hexDigitChar (n % 16)]

/-- toHexComponent from the parse route: a channel value above 1 is used as is,
one at most 1 is scaled by 255; the result is rounded, clamped to [0, 255] and
written as two hex digits. -/
def toHexComponent (value : ℚ) : String :=
  let normalized := if value > 1 then value else value * 255
  let clamped := max 0 (min 255 (jsRound normalized))
  twoDigitHex clamped.toNat

/-- rgbToHex from the parse route. -/
def rgbToHex (r g b : ℚ) : String :=
  "#" ++ toHexComponent r ++ toHexComponent g ++ toHexComponent b

/-- The fill extraction of the parse route's character walker: a color array
with at least three entries is converted, anything else falls back to the
fixed dark gray.  none models an absent (null or undefined) color. -/
def extractFill (colorData : Option (List ℚ)) : String :=
  match colorData with
  | some cs => if 3 ≤ cs.length then rgbToHex (cs.getD 0 0) (cs.getD 1 0) (cs.getD 2 0)
               else COLOR_FALLBACK
  | none => COLOR_FALLBACK

/-! Parse route: font name resolution. -/

/-- fontName.replace(with the subset-prefix regex, ""): drop a prefix of six
uppercase letters followed by a plus sign, when present. -/
def stripSubsetPrefix (fontName : String) : String :=
  match fontName.toList with
  | c1 :: c2 :: c3 :: c4 :: c5 :: c6 :: '+' :: rest =>
    if c1.isUpper && c2.isUpper && c3.isUpper && c4.isUpper && c5.isUpper && c6.isUpper then
      String.mk rest
    else fontName
  | _ => fontName

/-- fontName.split(on - or ,)[0]: the segment before the first separator. -/
def segmentBeforeSeparator (s : String) : String :=
  String.mk (s.toList.takeWhile (fun c => c ≠ '-' && c ≠ ','))

/-- fontMap from the parse route, in object-literal insertion order. -/
def fontMap : List (String × String) :=
  [("TimesNewRoman", "Times New Roman"),
   ("TimesNewRomanPS", "Times New Roman"),
   ("Arial", "Arial"),
   ("ArialMT", "Arial"),
   ("Helvetica", "Helvetica"),
   ("Courier", "Courier New"),
   ("CourierNew", "Courier New"),
   ("Calibri", "Calibri"),
   ("Verdana", "Verdana"),
   ("Georgia", "Georgia"),
   ("Palatino", "Palatino")]

/-- The font family derivation of the parse route: strip the subset prefix,
take the segment before the first - or , and trim it (an empty result is falsy
and becomes sans-serif), then replace it by the first alias-table value whose
key it contains case-insensitively. -/
def resolveFontFamily (raw : String) : String :=
  let fontName := stripSubsetPrefix raw
  let base := jsTrim (segmentBeforeSeparator fontName)
  let fontFamily := if base = "" then "sans-serif" else base
  match fontMap.find? (fun entry =>
      containsSubstring (jsToLower fontFamily) (jsToLower entry.1)) with
  | some entry => entry.2
  | none => fontFamily

/-- The alternation branches of the bold-detection regex. -/
def boldKeywords : List String := ["bold", "heavy", "black", "demibold", "semibold"]

/-- The font weight derivation of the parse route.  Note that fontName has
already been reassigned to its subset-prefix-stripped form when the regex is
tested, so the test runs on the stripped name. -/
def resolveFontWeight (raw : String) : String :=
  let fontName := stripSubsetPrefix raw
  if boldKeywords.any (fun k => containsSubstring (jsToLower fontName) k) then "bold"
  else "normal"

/-! A JS number: an exact rational, NaN, or a signed infinity.  Used for the
one function whose treatment of non-finite inputs is itself under scrutiny. -/

inductive JSNum where
  | num (q : ℚ)
  | nan
  | inf
  | ninf
deriving DecidableEq

namespace JSNum

def add : JSNum → JSNum → JSNum
  | num a, num b => num (a + b)
  | num _, inf => inf
  | num _, ninf => ninf
  | inf, num _ => inf
  | ninf, num _ => ninf
  | inf, inf => inf
  | ninf, ninf => ninf
  | inf, ninf => nan
  | ninf, inf => nan
  | nan, _ => nan
  | _, nan => nan

def neg : JSNum → JSNum
  | num a => num (-a)
  | nan => nan
  | inf => ninf
  | ninf => inf

def sub (a b : JSNum) : JSNum := add a (neg b)

/-- JS division.  The model has no signed zero, so a finite value divided by
zero takes the sign of the dividend and 0 / 0 is NaN. -/
def div : JSNum → JSNum → JSNum
  | num a, num b =>
    if b = 0 then (if a = 0 then nan else if 0 < a then inf else ninf) else num (a / b)
  | num _, inf => num 0
  | num _, ninf => num 0
  | inf, num b => if b < 0 then ninf else inf
  | ninf, num b => if b < 0 then inf else ninf
  | inf, inf => nan
  | inf, ninf => nan
  | ninf, inf => nan
  | ninf, ninf => nan
  | nan, _ => nan
  | _, nan => nan

/-- JS strict less-than: every comparison with NaN is false. -/
def lt : JSNum → JSNum → Bool
  | num a, num b => a < b
  | num _, inf => true
  | num _, ninf => false
  | inf, num _ => false
  | ninf, num _ => true
  | inf, inf => false
  | ninf, ninf => false
  | inf, ninf => false
  | ninf, inf => true
  | nan, _ => false
  | _, nan => false

/-- Number.isFinite. -/
def isFinite : JSNum → Bool
  | num _ => true
  | _ => false

/-- JS truthiness of a number: false exactly for 0 and NaN. -/
def truthy : JSNum → Bool
  | num a => a ≠ 0
  | nan => false
  | inf => true
  | ninf => true

/-- Math.max: NaN if either argument is NaN. -/
def jsMax : JSNum → JSNum → JSNum
  | num a, num b => num (max a b)
  | num _, inf => inf
  | num a, ninf => num a
  | inf, num _ => inf
  | ninf, num b => num b
  | inf, inf => inf
  | ninf, ninf => ninf
  | inf, ninf => inf
  | ninf, inf => inf
  | nan, _ => nan
  | _, nan => nan

/-- Math.min: NaN if either argument is NaN. -/
def jsMin : JSNum → JSNum → JSNum
  | num a, num b => num (min a b)
  | num a, inf => num a
  | num _, ninf => ninf
  | inf, num b => num b
  | ninf, num _ => ninf
  | inf, inf => inf
  | ninf, ninf => ninf
  | inf, ninf => ninf
  | ninf, inf => ninf
  | nan, _ => nan
  | _, nan => nan

end JSNum

/-! A stable ascending sort, modelling JS Array.prototype.sort with a numeric
difference comparator (stability is guaranteed by the JS specification).
An element is inserted after every element that compares less-or-equal. -/

def insertLE {α : Type} (le : α → α → Bool) (x : α) : List α → List α
  | [] => [x]
  | y :: ys => if le y x then y :: insertLE le x ys else x :: y :: ys

def insertionSort {α : Type} (le : α → α → Bool) (l : List α) : List α :=
  l.foldl (fun acc x => insertLE le x acc) []

/-! Parse route: paragraph line-height derivation, over JS numbers. -/

/-- The fields of a ParagraphLine that deriveParagraphLineHeight reads. -/
structure JSParagraphLine where
  lineHeight : JSNum
  height : JSNum
  fontSize : JSNum
  y : JSNum
deriving DecidableEq

/-- clampLineHeight: Math.min(Math.max(value, 1), 3). -/
def clampLineHeight (value : JSNum) : JSNum :=
  JSNum.jsMin (JSNum.jsMax value (JSNum.num MIN_LINE_HEIGHT)) (JSNum.num MAX_LINE_HEIGHT)

/-- The deltas between consecutive elements of the ordered line list. -/
def consecutiveDeltas : List JSParagraphLine → List JSNum
  | a :: b :: rest => JSNum.sub b.y a.y :: consecutiveDeltas (b :: rest)
  | _ => []

/-- deriveParagraphLineHeight from the parse route, over JS numbers. -/
def deriveParagraphLineHeight (paragraphLines : List JSParagraphLine)
    (blockHeight : JSNum) : JSNum :=
  match paragraphLines with
  | [] => JSNum.num DEFAULT_LINE_HEIGHT
  | first :: _ =>
    let fontSize := if first.fontSize.truthy then first.fontSize else JSNum.num 1
    if paragraphLines.length = 1 then
      let single := first
      let candidates := [single.lineHeight, JSNum.div single.height fontSize,
        JSNum.div blockHeight fontSize].filter
        (fun val => val.isFinite && JSNum.lt (JSNum.num 0) val)
      let estimate :=
        if candidates.isEmpty then JSNum.num DEFAULT_LINE_HEIGHT
        else JSNum.div (candidates.foldl JSNum.add (JSNum.num 0))
          (JSNum.num (candidates.length : ℚ))
      clampLineHeight estimate
    else
      let ordered := insertionSort (fun a b => !JSNum.lt b.y a.y) paragraphLines
      let verticalSteps := (consecutiveDeltas ordered).filter
        (fun delta => JSNum.lt (JSNum.num 0) delta)
      let avgStep :=
        if verticalSteps.isEmpty then
          JSNum.div blockHeight (JSNum.num ((max (paragraphLines.length - 1) 1 : ℕ) : ℚ))
        else JSNum.div (verticalSteps.foldl JSNum.add (JSNum.num 0))
          (JSNum.num (verticalSteps.length : ℚ))
      let avgPerLine := JSNum.div blockHeight (JSNum.num (paragraphLines.length : ℚ))
      let normalizedGap := JSNum.div avgStep fontSize
      let normalizedBlock := JSNum.div avgPerLine fontSize
      let blended := JSNum.div (JSNum.add normalizedGap normalizedBlock) (JSNum.num 2)
      clampLineHeight (if blended.isFinite then blended else JSNum.num DEFAULT_LINE_HEIGHT)

/-! Parse route: line clustering. -/

/-- A TextItem produced by the parse route's character walker. -/
structure TextItem where
  text : String
  x : ℚ
  y : ℚ
  width : ℚ
  height : ℚ
  fontSize : ℚ
  fontFamily : String
  fontWeight : String
  fill : String
  lineHeight : ℚ
deriving DecidableEq

/-- A Line during clustering: the representative top y and the items. -/
structure Line where
  y : ℚ
  items : List TextItem
deriving DecidableEq

/-- The y tolerance of the clustering loop, in pixels. -/
def yTol : ℚ := 3

/-- One iteration of the clustering loop: the item joins the first line whose
representative y is within the tolerance, else a new line is pushed at the end. -/
def addItemToLines : List Line → TextItem → List Line
  | [], it => [⟨it.y, [it]⟩]
  | ln :: rest, it =>
    if |ln.y - it.y| ≤ yTol then ⟨ln.y, ln.items ++ [it]⟩ :: rest
    else ln :: addItemToLines rest it

/-- The clustering pass of the parse route: fold the items, then sort lines by
ascending y and each line's items by ascending x. -/
def clusterLines (textItems : List TextItem) : List Line :=
  let lines := textItems.foldl addItemToLines []
  let sorted := insertionSort (fun a b => decide (a.y ≤ b.y)) lines
  sorted.map (fun ln => ⟨ln.y, insertionSort (fun a b => decide (a.x ≤ b.x)) ln.items⟩)

/-! Parse route: paragraph assembly. -/

/-- A ParagraphLine record built for each processed line. -/
structure ParagraphLine where
  text : String
  minX : ℚ
  maxX : ℚ
  y : ℚ
  height : ℚ
  fontSize : ℚ
  fontFamily : String
  fontWeight : String
  lineHeight : ℚ
  fill : String
deriving DecidableEq

/-- The projection of a ParagraphLine onto the fields read by
deriveParagraphLineHeight; an extracted line always holds finite numbers. -/
def ParagraphLine.toJS (l : ParagraphLine) : JSParagraphLine :=
  ⟨JSNum.num l.lineHeight, JSNum.num l.height, JSNum.num l.fontSize, JSNum.num l.y⟩

/-- A ParsedBlock, the persisted paragraph output of the parse route. -/
structure ParsedBlock where
  text : String
  x : ℚ
  y : ℚ
  width : ℚ
  height : ℚ
  fontSize : ℚ
  fontFamily : String
  fontWeight : String
  lineHeight : JSNum
  fill : String
deriving DecidableEq

/-- Flushing the current paragraph as a ParsedBlock (nothing is flushed for an
empty paragraph; the source only flushes nonempty ones). -/
def flushParagraph (currentParagraph : List ParagraphLine) : List ParsedBlock :=
  match currentParagraph with
  | [] => []
  | first :: _ =>
    let paragraphText := joinLines (currentParagraph.map (fun l => l.text))
    let paragraphMinX := listMin (currentParagraph.map (fun l => l.minX))
    let paragraphMaxX := listMax (currentParagraph.map (fun l => l.maxX))
    let paragraphMinY := listMin (currentParagraph.map (fun l => l.y))
    let paragraphHeight :=
      listMax (currentParagraph.map (fun l => l.y + l.height)) - paragraphMinY
    let normalizedLineHeight := deriveParagraphLineHeight
      (currentParagraph.map ParagraphLine.toJS) (JSNum.num paragraphHeight)
    [⟨paragraphText, paragraphMinX, paragraphMinY,
      max 0 (paragraphMaxX - paragraphMinX + BLOCK_WIDTH_CALIBRATION), paragraphHeight,
      first.fontSize, first.fontFamily, first.fontWeight, normalizedLineHeight, first.fill⟩]

/-- The fold state of the paragraph loop. -/
structure AsmState where
  resultBlocks : List ParsedBlock
  currentParagraph : List ParagraphLine
deriving DecidableEq

/-- One iteration of the paragraph loop of the parse route. -/
def asmStep (st : AsmState) (currentLine : ParagraphLine) : AsmState :=
  match st.currentParagraph.getLast? with
  | none => ⟨st.resultBlocks, [currentLine]⟩
  | some prev =>
    let maxFontSize := max prev.fontSize currentLine.fontSize
    let alignThreshold := max 10 (maxFontSize * 1.5)
    let alignDiff := |prev.minX - currentLine.minX|
    let aligned := alignDiff ≤ alignThreshold
    let gap := currentLine.y - prev.y
    let sameFontSize := |prev.fontSize - currentLine.fontSize| ≤ (1/2)
    let sameColor := prev.fill = currentLine.fill
    let hardBreak := jsEndsWith (jsTrim prev.text) "."
    let gapThreshold := max (max prev.height currentLine.height) maxFontSize + 18
    let closeEnough := gap ≤ gapThreshold
    if aligned ∧ sameFontSize ∧ sameColor ∧ hardBreak = false ∧ closeEnough then
      ⟨st.resultBlocks, st.currentParagraph ++ [currentLine]⟩
    else
      ⟨st.resultBlocks ++ flushParagraph st.currentParagraph, [currentLine]⟩

/-- The full paragraph assembly: fold the lines, then flush the last paragraph. -/
def assembleParagraphs (processedLines : List ParagraphLine) : List ParsedBlock :=
  let final := processedLines.foldl asmStep ⟨[], []⟩
  final.resultBlocks ++ flushParagraph final.currentParagraph

/-! Parse route: the per-document page loop. -/

/-- A ParsedPage of the parse response. -/
structure ParsedPage where
  pageNumber : ℕ
  width : ℚ
  height : ℚ
  blocks : List ParsedBlock
deriving DecidableEq

/-- The specification scenario's first paragraph line: fontSize 12, black fill,
left edge 0, top y 100. -/
def mergeLineA : ParagraphLine :=
  ⟨"first line", 0, 50, 100, 12, 12, "Arial", "normal", 1.2, "#000000"⟩

/-- The specification scenario's second paragraph line: identical style, left
edge aligned, vertical gap 15. -/
def mergeLineB : ParagraphLine :=
  ⟨"second line", 0, 50, 115, 12, 12, "Arial", "normal", 1.2, "#000000"⟩

/-- The first scenario line with its text ending in a period. -/
def mergeLineAP : ParagraphLine :=
  ⟨"first line.", 0, 50, 100, 12, 12, "Arial", "normal", 1.2, "#000000"⟩

/-- A one-character text item at a given position, for the clustering scenario. -/
def charItem (xv yv : ℚ) : TextItem :=
  ⟨"a", xv, yv, 5, 10, 12, "Arial", "normal", "#000000", 1.2⟩

/-- The page loop of the parse route's POST handler.  The whole loop runs
inside the handler's single try/catch, so a page whose extraction throws
propagates out of the loop: each page's extraction outcome is given abstractly
as ok (its ParsedPage) or error (the thrown message), and the loop stops at
the first error, which the catch turns into the single error response. -/
def runParseLoop : List (Except String ParsedPage) → Except String (List ParsedPage)
  | [] => Except.ok []
  | Except.error e :: _ => Except.error e
  | Except.ok p :: rest =>
    match runParseLoop rest with
    | Except.ok ps => Except.ok (p :: ps)
    | Except.error e => Except.error e

/-- A successfully extracted page, for the isolation scenario. -/
def samplePage : ParsedPage := ⟨1, 600, 800, []⟩

/-- The specification scenario's overlay: captured at rotation 0 with ratios
(0.1, 0.1, 0.2, 0.05). -/
def maskScenarioOverlay : TextOverlayExport :=
  ⟨"hello", 10, 10, 50, 20, 12, 1.2, "Arial", "normal", "#000000", 1,
    some ⟨1/10, 1/10, 1/5, 1/20, 0⟩⟩

/-- The page payload of the mask scenario: rotation 90. -/
def maskScenarioPayload : PageExportPayload := ⟨1, 612, 792, 90, []⟩

/-- An overlay with pixel width 0, whose derived width ratio is 0. -/
def degenerateOverlay : TextOverlayExport :=
  ⟨"x", 10, 10, 0, 20, 12, 1.2, "Arial", "normal", "#000000", 1, none⟩

/-- An unremarkable page payload used to exercise the planner. -/
def plainPayload : PageExportPayload := ⟨1, 600, 800, 0, []⟩

/-! Helper lemmas. -/

theorem rotateStep0 (p : NormalizedPoint) : rotateNormalizedPoint p 0 = p := rfl

theorem rotateStep1 (p : NormalizedPoint) :
    rotateNormalizedPoint p 1 = ⟨1 - p.y, p.x⟩ := rfl

theorem rotateStep2 (p : NormalizedPoint) :
    rotateNormalizedPoint p 2 = ⟨1 - p.x, 1 - p.y⟩ := rfl

theorem rotateStep3 (p : NormalizedPoint) :
    rotateNormalizedPoint p 3 = ⟨p.y, 1 - p.x⟩ := rfl

theorem rotateRectBounds_zero (l t w h : ℚ) (hw : 0 ≤ w) (hh : 0 ≤ h) :
    rotateRectBounds l t w h 0 = ⟨l, t, w, h⟩ := by
  simp only [rotateRectBounds, rectCorners, List.map_cons, List.map_nil, rotateStep0,
    boundsFromPoints, listMin, listMax, List.foldl_cons, List.foldl_nil,
    NormalizedBounds.mk.injEq]
  refine ⟨?_, ?_, ?_, ?_⟩ <;>
    · simp only [min_def, max_def]
      split_ifs <;> linarith

theorem rotateRectBounds_one (l t w h : ℚ) (hw : 0 ≤ w) (hh : 0 ≤ h) :
    rotateRectBounds l t w h 1 = ⟨1 - t - h, l, h, w⟩ := by
  simp only [rotateRectBounds, rectCorners, List.map_cons, List.map_nil, rotateStep1,
    boundsFromPoints, listMin, listMax, List.foldl_cons, List.foldl_nil,
    NormalizedBounds.mk.injEq]
  refine ⟨?_, ?_, ?_, ?_⟩ <;>
    · simp only [min_def, max_def]
      split_ifs <;> linarith

theorem rotateRectBounds_two (l t w h : ℚ) (hw : 0 ≤ w) (hh : 0 ≤ h) :
    rotateRectBounds l t w h 2 = ⟨1 - l - w, 1 - t - h, w, h⟩ := by
  simp only [rotateRectBounds, rectCorners, List.map_cons, List.map_nil, rotateStep2,
    boundsFromPoints, listMin, listMax, List.foldl_cons, List.foldl_nil,
    NormalizedBounds.mk.injEq]
  refine ⟨?_, ?_, ?_, ?_⟩ <;>
    · simp only [min_def, max_def]
      split_ifs <;> linarith

theorem rotateRectBounds_three (l t w h : ℚ) (hw : 0 ≤ w) (hh : 0 ≤ h) :
    rotateRectBounds l t w h 3 = ⟨t, 1 - l - w, h, w⟩ := by
  simp only [rotateRectBounds, rectCorners, List.map_cons, List.map_nil, rotateStep3,
    boundsFromPoints, listMin, listMax, List.foldl_cons, List.foldl_nil,
    NormalizedBounds.mk.injEq]
  refine ⟨?_, ?_, ?_, ?_⟩ <;>
    · simp only [min_def, max_def]
      split_ifs <;> linarith

theorem roundTrip0 (l t w h : ℚ) (hw : 0 ≤ w) (hh : 0 ≤ h) :
    rotateRectBounds (rotateRectBounds l t w h 0).minX (rotateRectBounds l t w h 0).minY
      (rotateRectBounds l t w h 0).width (rotateRectBounds l t w h 0).height 0 =
      ⟨l, t, w, h⟩ := by
  rw [rotateRectBounds_zero l t w h hw hh]
  exact rotateRectBounds_zero l t w h hw hh

theorem roundTrip1 (l t w h : ℚ) (hw : 0 ≤ w) (hh : 0 ≤ h) :
    rotateRectBounds (rotateRectBounds l t w h 1).minX (rotateRectBounds l t w h 1).minY
      (rotateRectBounds l t w h 1).width (rotateRectBounds l t w h 1).height 3 =
      ⟨l, t, w, h⟩ := by
  rw [rotateRectBounds_one l t w h hw hh]
  show rotateRectBounds (1 - t - h) l h w 3 = _
  rw [rotateRectBounds_three _ _ _ _ hh hw]
  congr 1 <;> ring

theorem roundTrip2 (l t w h : ℚ) (hw : 0 ≤ w) (hh : 0 ≤ h) :
    rotateRectBounds (rotateRectBounds l t w h 2).minX (rotateRectBounds l t w h 2).minY
      (rotateRectBounds l t w h 2).width (rotateRectBounds l t w h 2).height 2 =
      ⟨l, t, w, h⟩ := by
  rw [rotateRectBounds_two l t w h hw hh]
  show rotateRectBounds (1 - l - w) (1 - t - h) w h 2 = _
  rw [rotateRectBounds_two _ _ _ _ hw hh]
  congr 1 <;> ring

theorem roundTrip3 (l t w h : ℚ) (hw : 0 ≤ w) (hh : 0 ≤ h) :
    rotateRectBounds (rotateRectBounds l t w h 3).minX (rotateRectBounds l t w h 3).minY
      (rotateRectBounds l t w h 3).width (rotateRectBounds l t w h 3).height 1 =
      ⟨l, t, w, h⟩ := by
  rw [rotateRectBounds_three l t w h hw hh]
  show rotateRectBounds t (1 - l - w) h w 1 = _
  rw [rotateRectBounds_one _ _ _ _ hh hw]
  congr 1 <;> ring

/-- C1: for every axis-aligned rectangle with corners in the unit square and
every pair of rotation step values a, b in curly-braces 0 to 3, rotating the
rectangle's four corners with rotateNormalizedPoint by the delta (b - a + 4)
mod 4, taking the axis-aligned bounding box with boundsFromPoints, then
rotating that box's corners by (a - b + 4) mod 4 and re-bounding reproduces
the original rectangle exactly (exact rational arithmetic). -/
theorem rotation_roundtrip (l t w h : ℚ) (a b : ℕ) (hl : 0 ≤ l) (ht : 0 ≤ t)
    (hw : 0 ≤ w) (hh : 0 ≤ h) (hlw : l + w ≤ 1) (hth : t + h ≤ 1)
    (ha : a < 4) (hb : b < 4) :
    rotateRectBounds
      (rotateRectBounds l t w h ((b + 4 - a) % 4)).minX
      (rotateRectBounds l t w h ((b + 4 - a) % 4)).minY
      (rotateRectBounds l t w h ((b + 4 - a) % 4)).width
      (rotateRectBounds l t w h ((b + 4 - a) % 4)).height
      ((a + 4 - b) % 4) = ⟨l, t, w, h⟩ := by
  interval_cases a <;> interval_cases b <;>
    simp only [Nat.reduceAdd, Nat.reduceSub, Nat.reduceMod]
  · exact roundTrip0 l t w h hw hh
  · exact roundTrip1 l t w h hw hh
  · exact roundTrip2 l t w h hw hh
  · exact roundTrip3 l t w h hw hh
  · exact roundTrip3 l t w h hw hh
  · exact roundTrip0 l t w h hw hh
  · exact roundTrip1 l t w h hw hh
  · exact roundTrip2 l t w h hw hh
  · exact roundTrip2 l t w h hw hh
  · exact roundTrip3 l t w h hw hh
  · exact roundTrip0 l t w h hw hh
  · exact roundTrip1 l t w h hw hh
  · exact roundTrip1 l t w h hw hh
  · exact roundTrip2 l t w h hw hh
  · exact roundTrip3 l t w h hw hh
  · exact roundTrip0 l t w h hw hh

/-- Witness for C1 at a concrete rectangle and rotation pair. -/
theorem rotation_roundtrip_witness :
    (0 ≤ (1/10 : ℚ) ∧ 0 ≤ (1/5 : ℚ) ∧ 0 ≤ (3/10 : ℚ) ∧ 0 ≤ (2/5 : ℚ) ∧
      (1/10 : ℚ) + 3/10 ≤ 1 ∧ (1/5 : ℚ) + 2/5 ≤ 1 ∧ 1 < 4 ∧ 2 < 4) ∧
    rotateRectBounds
      (rotateRectBounds (1/10) (1/5) (3/10) (2/5) ((2 + 4 - 1) % 4)).minX
      (rotateRectBounds (1/10) (1/5) (3/10) (2/5) ((2 + 4 - 1) % 4)).minY
      (rotateRectBounds (1/10) (1/5) (3/10) (2/5) ((2 + 4 - 1) % 4)).width
      (rotateRectBounds (1/10) (1/5) (3/10) (2/5) ((2 + 4 - 1) % 4)).height
      ((1 + 4 - 2) % 4) = ⟨1/10, 1/5, 3/10, 2/5⟩ :=
  ⟨⟨by norm_num, by norm_num, by norm_num, by norm_num, by norm_num, by norm_num,
    by norm_num, by norm_num⟩,
   rotation_roundtrip (1/10) (1/5) (3/10) (2/5) 1 2 (by norm_num) (by norm_num)
     (by norm_num) (by norm_num) (by norm_num) (by norm_num) (by norm_num) (by norm_num)⟩

/-- C2: for the overlay captured at rotation 0 with ratios
(0.1, 0.1, 0.2, 0.05), replayed at page rotation 90 on a page of intrinsic
size 600 by 800, computeMaskBoundsFromOriginal returns rectX 510, rectY 560,
width 30, height 160. -/
theorem computeMaskBounds_rotation90_scenario :
    computeMaskBoundsFromOriginal maskScenarioOverlay maskScenarioPayload 600 800 =
      some ⟨510, 560, 30, 160⟩ := by
  with_unfolding_all decide

/-- overlayInstructions reads only the width, height and rotation of the page
payload, so replacing the payload's overlay list does not change it. -/
theorem overlayInstructions_set_overlays (o : TextOverlayExport) (p : PageExportPayload)
    (ovs : List TextOverlayExport) (pw ph : ℚ) :
    overlayInstructions o {p with overlays := ovs} pw ph =
      overlayInstructions o p pw ph := rfl

theorem foldl_append_any {α β : Type} (f : α → List β) (g : α → Bool) :
    ∀ (l : List α) (i1 : List β) (i2 : Bool),
      l.foldl (fun acc o => (acc.1 ++ f o, acc.2 || g o)) (i1, i2) =
        (i1 ++ l.flatMap f, i2 || l.any g) := by
  intro l
  induction l with
  | nil => intro i1 i2; simp
  | cons x xs ih =>
    intro i1 i2
    simp only [List.foldl_cons, List.flatMap_cons, List.any_cons, ih,
      List.append_assoc, Bool.or_assoc]

/-- applyOverlaysToPage emits the concatenation of the per-overlay instructions
and reports modification exactly when some overlay emitted instructions. -/
theorem applyOverlaysToPage_eq_flatMap (p : PageExportPayload) (pw ph : ℚ) :
    applyOverlaysToPage p pw ph =
      (p.overlays.flatMap (fun o => overlayInstructions o p pw ph),
       p.overlays.any (fun o => !(overlayInstructions o p pw ph).isEmpty)) := by
  unfold applyOverlaysToPage
  by_cases hone : p.overlays.isEmpty
  · rw [if_pos hone]
    rw [List.isEmpty_iff] at hone
    rw [hone]
    rfl
  · rw [if_neg hone]
    exact foldl_append_any (fun o => overlayInstructions o p pw ph)
      (fun o => !(overlayInstructions o p pw ph).isEmpty) p.overlays [] false

/-- A width or height ratio that is not positive makes deriveBounds return none. -/
theorem deriveBounds_none_of_ratio (o : TextOverlayExport) (p : PageExportPayload)
    (pw ph : ℚ)
    (h : derivedWidthRatio o p pw ≤ 0 ∨ derivedHeightRatio o p ph ≤ 0) :
    deriveBounds o p pw ph = none := by
  unfold deriveBounds
  split_ifs <;> rfl

/-- A page-space width or height that is not positive makes deriveBounds
return none. -/
theorem deriveBounds_none_of_pageSpace (o : TextOverlayExport) (p : PageExportPayload)
    (pw ph : ℚ)
    (h : pageSpaceWidth o p pw ph ≤ 0 ∨ pageSpaceHeight o p pw ph ≤ 0) :
    deriveBounds o p pw ph = none := by
  unfold pageSpaceWidth pageSpaceHeight at h
  unfold deriveBounds
  dsimp only
  split_ifs <;> rfl

/-- A degenerate overlay emits no instructions. -/
theorem overlayInstructions_eq_nil (o : TextOverlayExport) (p : PageExportPayload)
    (pw ph : ℚ)
    (h : jsTrim o.text = "" ∨
      derivedWidthRatio o p pw ≤ 0 ∨ derivedHeightRatio o p ph ≤ 0 ∨
      pageSpaceWidth o p pw ph ≤ 0 ∨ pageSpaceHeight o p pw ph ≤ 0) :
    overlayInstructions o p pw ph = [] := by
  rcases h with ht | hwr | hhr | hpw | hph
  · simp [overlayInstructions, ht]
  · simp [overlayInstructions, deriveBounds_none_of_ratio o p pw ph (Or.inl hwr)]
  · simp [overlayInstructions, deriveBounds_none_of_ratio o p pw ph (Or.inr hhr)]
  · simp [overlayInstructions, deriveBounds_none_of_pageSpace o p pw ph (Or.inl hpw)]
  · simp [overlayInstructions, deriveBounds_none_of_pageSpace o p pw ph (Or.inr hph)]

/-- Removing an overlay that emits no instructions leaves the page plan
unchanged. -/
theorem applyOverlaysToPage_skip (p : PageExportPayload) (pw ph : ℚ)
    (pre post : List TextOverlayExport) (bad : TextOverlayExport)
    (h : jsTrim bad.text = "" ∨
      derivedWidthRatio bad p pw ≤ 0 ∨ derivedHeightRatio bad p ph ≤ 0 ∨
      pageSpaceWidth bad p pw ph ≤ 0 ∨ pageSpaceHeight bad p pw ph ≤ 0) :
    applyOverlaysToPage {p with overlays := pre ++ bad :: post} pw ph =
      applyOverlaysToPage {p with overlays := pre ++ post} pw ph := by
  rw [applyOverlaysToPage_eq_flatMap, applyOverlaysToPage_eq_flatMap]
  have hfun : ∀ (ovs : List TextOverlayExport) (o : TextOverlayExport),
      overlayInstructions o {p with overlays := ovs} pw ph =
        overlayInstructions o p pw ph :=
    fun ovs o => overlayInstructions_set_overlays o p ovs pw ph
  simp only [hfun]
  have hbad : overlayInstructions bad p pw ph = [] :=
    overlayInstructions_eq_nil bad p pw ph h
  simp [List.flatMap_append, List.flatMap_cons, List.any_append, List.any_cons, hbad]

/-- C3: at save time, an overlay whose text is empty or whitespace-only, or
whose computed width or height ratio is not positive, or whose page-space
width or height is not positive, contributes no mask rectangle and no
text-draw instruction, and the remaining overlays and pages are processed
unchanged (the save is not aborted). -/
theorem planner_skips_degenerate_overlays
    (p : PageExportPayload) (pageWidth pageHeight : ℚ)
    (pre post : List TextOverlayExport) (bad : TextOverlayExport)
    (A B : List PageExportPayload) (docPages : List (ℚ × ℚ))
    (h : jsTrim bad.text = "" ∨
      derivedWidthRatio bad p pageWidth ≤ 0 ∨ derivedHeightRatio bad p pageHeight ≤ 0 ∨
      pageSpaceWidth bad p pageWidth pageHeight ≤ 0 ∨
      pageSpaceHeight bad p pageWidth pageHeight ≤ 0)
    (hdoc : docPages.get? (max 0 (ratFloor (p.pageNumber - 1))).toNat =
      some (pageWidth, pageHeight)) :
    applyOverlaysToPage {p with overlays := pre ++ bad :: post} pageWidth pageHeight =
      applyOverlaysToPage {p with overlays := pre ++ post} pageWidth pageHeight ∧
    processPages (A ++ {p with overlays := pre ++ bad :: post} :: B) docPages =
      processPages (A ++ {p with overlays := pre ++ post} :: B) docPages := by
  have h1 := applyOverlaysToPage_skip p pageWidth pageHeight pre post bad h
  refine ⟨h1, ?_⟩
  unfold processPages
  rw [List.foldl_append, List.foldl_append, List.foldl_cons, List.foldl_cons]
  congr 1
  dsimp only
  rw [hdoc]
  dsimp only
  rw [h1]

/-- Witness for C3: an overlay of pixel width 0 is skipped and the page plan is
unchanged. -/
theorem planner_skips_degenerate_overlays_witness :
    derivedWidthRatio degenerateOverlay plainPayload 600 ≤ 0 ∧
    applyOverlaysToPage {plainPayload with overlays := [degenerateOverlay]} 600 800 =
      applyOverlaysToPage {plainPayload with overlays := []} 600 800 ∧
    processPages [{plainPayload with overlays := [degenerateOverlay]}] [(600, 800)] =
      processPages [{plainPayload with overlays := []}] [(600, 800)] := by
  have h := planner_skips_degenerate_overlays plainPayload 600 800 [] []
    degenerateOverlay [] [] [(600, 800)]
    (Or.inr (Or.inl (by with_unfolding_all decide)))
    (by with_unfolding_all decide)
  exact ⟨by with_unfolding_all decide, h.1, h.2⟩

/-- C4 counterexample: a document whose second page throws during extraction
produces a single error result; the successfully extracted first page is not
returned, contradicting per-page isolation. -/
theorem parse_throw_aborts_counterexample :
    runParseLoop [Except.ok samplePage, Except.error "page 2 failed"] =
      Except.error "page 2 failed" := rfl

/-- C4 (amended): a page that throws during extraction propagates out of the
page loop to the route's single try/catch, so the whole parse fails with one
error response and no ParsedPage results are returned. -/
theorem parse_throwing_page_fails_whole_parse :
    ∀ (pre post : List (Except String ParsedPage)) (e : String),
      ∃ msg, runParseLoop (pre ++ Except.error e :: post) = Except.error msg := by
  intro pre post e
  induction pre with
  | nil => exact ⟨e, rfl⟩
  | cons x xs ih =>
    obtain ⟨msg, hmsg⟩ := ih
    cases x with
    | error e2 => exact ⟨e2, rfl⟩
    | ok pg =>
      refine ⟨msg, ?_⟩
      show (match runParseLoop (xs ++ Except.error e :: post) with
        | Except.ok ps => Except.ok (pg :: ps)
        | Except.error e2 => Except.error e2) = Except.error msg
      rw [hmsg]

/-- Witness for C4's amended statement at a concrete page list. -/
theorem parse_throwing_page_fails_whole_parse_witness :
    ∃ msg, runParseLoop ([Except.ok samplePage] ++ Except.error "boom" :: []) =
      Except.error msg :=
  parse_throwing_page_fails_whole_parse [Except.ok samplePage] [] "boom"

/-- Clamping a finite value lands in the interval [1, 3]. -/
theorem clampLineHeight_num_range (q : ℚ) :
    ∃ r : ℚ, clampLineHeight (JSNum.num q) = JSNum.num r ∧ 1 ≤ r ∧ r ≤ 3 :=
  ⟨min (max q 1) 3, rfl, le_min (le_trans (le_max_right q 1) (le_refl _)) (by norm_num),
    min_le_right _ 3⟩

/-- Clamping a finiteness-guarded value lands in [1, 3] for every JS number. -/
theorem clampLineHeight_guard_range (v : JSNum) :
    ∃ r : ℚ, clampLineHeight (if v.isFinite then v else JSNum.num DEFAULT_LINE_HEIGHT) =
      JSNum.num r ∧ 1 ≤ r ∧ r ≤ 3 := by
  cases v with
  | num x => simpa [JSNum.isFinite] using clampLineHeight_num_range x
  | nan => simpa [JSNum.isFinite] using clampLineHeight_num_range DEFAULT_LINE_HEIGHT
  | inf => simpa [JSNum.isFinite] using clampLineHeight_num_range DEFAULT_LINE_HEIGHT
  | ninf => simpa [JSNum.isFinite] using clampLineHeight_num_range DEFAULT_LINE_HEIGHT

/-- Summing finite JS numbers from a finite start stays finite. -/
theorem foldl_add_finite : ∀ (l : List JSNum) (q : ℚ),
    (∀ v ∈ l, v.isFinite = true) →
      ∃ s : ℚ, l.foldl JSNum.add (JSNum.num q) = JSNum.num s := by
  intro l
  induction l with
  | nil => intro q _; exact ⟨q, rfl⟩
  | cons v vs ih =>
    intro q hall
    have hv := hall v (List.mem_cons_self v vs)
    cases v with
    | num a =>
      obtain ⟨s, hs⟩ := ih (q + a) (fun w hw => hall w (List.mem_cons_of_mem _ hw))
      exact ⟨s, hs⟩
    | nan => simp [JSNum.isFinite] at hv
    | inf => simp [JSNum.isFinite] at hv
    | ninf => simp [JSNum.isFinite] at hv

/-- Dividing a finite JS number by a nonzero finite one is exact division. -/
theorem JSNum.div_num_num (a b : ℚ) (hb : b ≠ 0) :
    JSNum.div (JSNum.num a) (JSNum.num b) = JSNum.num (a / b) := by
  simp [JSNum.div, hb]

/-- The single-line estimate, clamped, lands in [1, 3] whenever every candidate
is finite. -/
theorem clamp_estimate_range (candidates : List JSNum)
    (h : ∀ v ∈ candidates, v.isFinite = true) :
    ∃ r : ℚ, clampLineHeight
      (if candidates.isEmpty then JSNum.num DEFAULT_LINE_HEIGHT
       else JSNum.div (candidates.foldl JSNum.add (JSNum.num 0))
         (JSNum.num (candidates.length : ℚ))) = JSNum.num r ∧ 1 ≤ r ∧ r ≤ 3 := by
  cases candidates with
  | nil => simpa using clampLineHeight_num_range DEFAULT_LINE_HEIGHT
  | cons v vs =>
    obtain ⟨s, hs⟩ := foldl_add_finite (v :: vs) 0 h
    have hb : (((v :: vs).length : ℕ) : ℚ) ≠ 0 :=
      Nat.cast_ne_zero.mpr (by simp)
    rw [if_neg (by simp : ¬((v :: vs).isEmpty = true))]
    rw [hs, JSNum.div_num_num s _ hb]
    exact clampLineHeight_num_range _

/-- C5: deriveParagraphLineHeight returns a finite value in the closed
interval [1, 3] for every list of paragraph lines and every block height,
including empty input and lines whose lineHeight, height, fontSize, y or
blockHeight are zero, negative, NaN or infinite. -/
theorem deriveParagraphLineHeight_in_range (paragraphLines : List JSParagraphLine)
    (blockHeight : JSNum) :
    ∃ q : ℚ, deriveParagraphLineHeight paragraphLines blockHeight = JSNum.num q ∧
      1 ≤ q ∧ q ≤ 3 := by
  cases paragraphLines with
  | nil =>
    refine ⟨DEFAULT_LINE_HEIGHT, rfl, ?_, ?_⟩ <;> norm_num [DEFAULT_LINE_HEIGHT]
  | cons first rest =>
    simp only [deriveParagraphLineHeight]
    by_cases hlen : (first :: rest).length = 1
    · rw [if_pos hlen]
      refine clamp_estimate_range _ ?_
      intro v hv
      have h2 := (List.mem_filter.mp hv).2
      simp only [Bool.and_eq_true] at h2
      exact h2.1
    · rw [if_neg hlen]
      exact clampLineHeight_guard_range _

/-- Witness for C5 at a degenerate single line: NaN lineHeight, infinite
height, zero font size, NaN y, negatively infinite block height. -/
theorem deriveParagraphLineHeight_in_range_witness :
    ∃ q : ℚ, deriveParagraphLineHeight [⟨JSNum.nan, JSNum.inf, JSNum.num 0, JSNum.nan⟩]
      JSNum.ninf = JSNum.num q ∧ 1 ≤ q ∧ q ≤ 3 :=
  deriveParagraphLineHeight_in_range [⟨JSNum.nan, JSNum.inf, JSNum.num 0, JSNum.nan⟩]
    JSNum.ninf

/-- C6: the paragraph loop appends a line to the current nonempty paragraph
exactly when the left edges are aligned within max(10, 1.5 times the larger
font size), the font sizes differ by at most 0.5, the fill colors match
exactly, the previous line's trimmed text does not end with a period, and the
vertical gap is at most max(heightPrev, heightCur, larger font size) + 18.
In particular the two scenario lines (identical style, gap 15, fontSize 12)
merge into one paragraph, and do not merge when the first line ends with a
period. -/
theorem paragraph_merge_rule :
    (∀ (blocks : List ParsedBlock) (ps : List ParagraphLine) (prev cur : ParagraphLine),
      asmStep ⟨blocks, ps ++ [prev]⟩ cur = ⟨blocks, (ps ++ [prev]) ++ [cur]⟩ ↔
        (|prev.minX - cur.minX| ≤ max 10 (max prev.fontSize cur.fontSize * 1.5) ∧
         |prev.fontSize - cur.fontSize| ≤ 1/2 ∧
         prev.fill = cur.fill ∧
         jsEndsWith (jsTrim prev.text) "." = false ∧
         cur.y - prev.y ≤ max (max prev.height cur.height)
           (max prev.fontSize cur.fontSize) + 18)) ∧
    (assembleParagraphs [mergeLineA, mergeLineB]).length = 1 ∧
    (assembleParagraphs [mergeLineAP, mergeLineB]).length = 2 := by
  refine ⟨?_, ?_, ?_⟩
  · intro blocks ps prev cur
    have hlast : (ps ++ [prev]).getLast? = some prev := List.getLast?_concat ps
    constructor
    · intro heq
      by_cases hc : (|prev.minX - cur.minX| ≤ max 10 (max prev.fontSize cur.fontSize * 1.5) ∧
          |prev.fontSize - cur.fontSize| ≤ 1/2 ∧
          prev.fill = cur.fill ∧
          jsEndsWith (jsTrim prev.text) "." = false ∧
          cur.y - prev.y ≤ max (max prev.height cur.height)
            (max prev.fontSize cur.fontSize) + 18)
      · exact hc
      · exfalso
        have hstep : asmStep ⟨blocks, ps ++ [prev]⟩ cur =
            ⟨blocks ++ flushParagraph (ps ++ [prev]), [cur]⟩ := by
          simp only [asmStep, hlast]
          rw [if_neg hc]
        rw [hstep] at heq
        have h2 := congrArg AsmState.currentParagraph heq
        dsimp only at h2
        have h3 := congrArg List.length h2
        simp [List.length_append] at h3
    · intro hc
      simp only [asmStep, hlast]
      rw [if_pos hc]
  · with_unfolding_all decide
  · with_unfolding_all decide

/-- Witness for C6: the scenario lines merge. -/
theorem paragraph_merge_rule_witness :
    asmStep ⟨[], [mergeLineA]⟩ mergeLineB = ⟨[], [mergeLineA, mergeLineB]⟩ :=
  (paragraph_merge_rule.1 [] [] mergeLineA mergeLineB).mpr (by with_unfolding_all decide)

theorem mem_insertLE {α : Type} (le : α → α → Bool) (x y : α) :
    ∀ (l : List α), y ∈ insertLE le x l ↔ y = x ∨ y ∈ l := by
  intro l
  induction l with
  | nil => simp [insertLE]
  | cons z zs ih =>
    by_cases h : le z x = true
    · simp only [insertLE, if_pos h, List.mem_cons, ih]
      tauto
    · simp only [insertLE, if_neg h, List.mem_cons]

theorem pairwise_insertLE {α : Type} (le : α → α → Bool)
    (htrans : ∀ a b c, le a b = true → le b c = true → le a c = true)
    (htotal : ∀ a b, le a b = true ∨ le b a = true) (x : α) :
    ∀ (l : List α), l.Pairwise (fun a b => le a b = true) →
      (insertLE le x l).Pairwise (fun a b => le a b = true) := by
  intro l
  induction l with
  | nil => intro _; simp [insertLE]
  | cons z zs ih =>
    intro hp
    rw [List.pairwise_cons] at hp
    obtain ⟨hz, hzs⟩ := hp
    by_cases h : le z x = true
    · rw [show insertLE le x (z :: zs) = z :: insertLE le x zs from by
        simp [insertLE, h]]
      rw [List.pairwise_cons]
      refine ⟨?_, ih hzs⟩
      intro y hy
      rcases (mem_insertLE le x y zs).mp hy with rfl | hyz
      · exact h
      · exact hz y hyz
    · rw [show insertLE le x (z :: zs) = x :: z :: zs from by simp [insertLE, h]]
      rw [List.pairwise_cons]
      constructor
      · intro y hy
        rcases List.mem_cons.mp hy with rfl | hyzs
        · rcases htotal x y with hxy | hyx
          · exact hxy
          · exact absurd hyx h
        · rcases htotal x z with hxz | hzx
          · exact htrans x z y hxz (hz y hyzs)
          · exact absurd hzx h
      · rw [List.pairwise_cons]
        exact ⟨hz, hzs⟩

theorem pairwise_insertionSort {α : Type} (le : α → α → Bool)
    (htrans : ∀ a b c, le a b = true → le b c = true → le a c = true)
    (htotal : ∀ a b, le a b = true ∨ le b a = true) (l : List α) :
    (insertionSort le l).Pairwise (fun a b => le a b = true) := by
  suffices hgen : ∀ (l acc : List α), acc.Pairwise (fun a b => le a b = true) →
      (l.foldl (fun acc x => insertLE le x acc) acc).Pairwise
        (fun a b => le a b = true) by
    exact hgen l [] (List.Pairwise.nil)
  intro l
  induction l with
  | nil => intro acc h; exact h
  | cons x xs ih =>
    intro acc h
    exact ih (insertLE le x acc) (pairwise_insertLE le htrans htotal x acc h)

/-- C7: each item joins the first existing line whose representative y is
within yTol of its y (the item is appended to that line, all other lines are
untouched), otherwise it starts a new line with its own y at the end; the
clustered lines are sorted by ascending y and each line's items by ascending
x; and the scenario with characters at y 100, 102 and 200 yields exactly two
lines. -/
theorem line_clustering_spec :
    (∀ (lines : List Line) (it : TextItem) (i : ℕ) (ln : Line),
      List.findIdx? (fun l => decide (|l.y - it.y| ≤ yTol)) lines = some i →
      lines.get? i = some ln →
      addItemToLines lines it = lines.set i ⟨ln.y, ln.items ++ [it]⟩) ∧
    (∀ (lines : List Line) (it : TextItem),
      List.findIdx? (fun l => decide (|l.y - it.y| ≤ yTol)) lines = none →
      addItemToLines lines it = lines ++ [⟨it.y, [it]⟩]) ∧
    (∀ (textItems : List TextItem),
      (clusterLines textItems).Pairwise (fun a b => a.y ≤ b.y) ∧
      ∀ ln ∈ clusterLines textItems, ln.items.Pairwise (fun a b => a.x ≤ b.x)) ∧
    (clusterLines [charItem 0 100, charItem 6 102, charItem 0 200]).length = 2 := by
  refine ⟨?_, ?_, ?_, ?_⟩
  · intro lines it
    induction lines with
    | nil => intro i ln hfind _; simp [List.findIdx?_nil] at hfind
    | cons hd tl ih =>
      intro i ln hfind hget
      rw [List.findIdx?_cons] at hfind
      by_cases hp : |hd.y - it.y| ≤ yTol
      · rw [if_pos (by simpa using hp)] at hfind
        have hi : i = 0 := (Option.some.inj hfind).symm
        subst hi
        have hln : hd = ln := by simpa using hget
        subst hln
        simp only [addItemToLines, if_pos hp, List.set]
      · rw [if_neg (by simpa using hp)] at hfind
        rw [List.findIdx?_succ] at hfind
        obtain ⟨j, hj, hji⟩ := Option.map_eq_some'.mp hfind
        subst hji
        have hget2 : tl.get? j = some ln := by simpa using hget
        simp only [addItemToLines, if_neg hp, List.set]
        rw [ih j ln hj hget2]
  · intro lines it
    induction lines with
    | nil => intro _; rfl
    | cons hd tl ih =>
      intro hfind
      rw [List.findIdx?_cons] at hfind
      by_cases hp : |hd.y - it.y| ≤ yTol
      · rw [if_pos (by simpa using hp)] at hfind
        exact absurd hfind (by simp)
      · rw [if_neg (by simpa using hp)] at hfind
        rw [List.findIdx?_succ] at hfind
        have hnone : List.findIdx? (fun l => decide (|l.y - it.y| ≤ yTol)) tl = none :=
          Option.map_eq_none'.mp hfind
        simp only [addItemToLines, if_neg hp, List.cons_append]
        rw [ih hnone]
  · intro textItems
    have htransY : ∀ a b c : Line, decide (a.y ≤ b.y) = true →
        decide (b.y ≤ c.y) = true → decide (a.y ≤ c.y) = true := by
      intro a b c hab hbc
      exact decide_eq_true (le_trans (of_decide_eq_true hab) (of_decide_eq_true hbc))
    have htotalY : ∀ a b : Line, decide (a.y ≤ b.y) = true ∨ decide (b.y ≤ a.y) = true := by
      intro a b
      rcases le_total a.y b.y with h | h
      · exact Or.inl (decide_eq_true h)
      · exact Or.inr (decide_eq_true h)
    constructor
    · unfold clusterLines
      have hs := pairwise_insertionSort (fun a b : Line => decide (a.y ≤ b.y)) htransY
        htotalY (textItems.foldl addItemToLines [])
      exact hs.map _ (fun a b hab => of_decide_eq_true hab)
    · intro ln hln
      unfold clusterLines at hln
      obtain ⟨ln0, _, rfl⟩ := List.mem_map.mp hln
      have htransX : ∀ a b c : TextItem, decide (a.x ≤ b.x) = true →
          decide (b.x ≤ c.x) = true → decide (a.x ≤ c.x) = true := by
        intro a b c hab hbc
        exact decide_eq_true (le_trans (of_decide_eq_true hab) (of_decide_eq_true hbc))
      have htotalX : ∀ a b : TextItem,
          decide (a.x ≤ b.x) = true ∨ decide (b.x ≤ a.x) = true := by
        intro a b
        rcases le_total a.x b.x with h | h
        · exact Or.inl (decide_eq_true h)
        · exact Or.inr (decide_eq_true h)
      have hs := pairwise_insertionSort (fun a b : TextItem => decide (a.x ≤ b.x))
        htransX htotalX ln0.items
      exact hs.imp (fun hab => of_decide_eq_true hab)
  · with_unfolding_all decide

/-- Witness for C7: a second character within tolerance joins the first line. -/
theorem line_clustering_spec_witness :
    addItemToLines [⟨100, [charItem 0 100]⟩] (charItem 6 102) =
      [⟨100, [charItem 0 100, charItem 6 102]⟩] :=
  line_clustering_spec.1 [⟨100, [charItem 0 100]⟩] (charItem 6 102) 0
    ⟨100, [charItem 0 100]⟩ (by with_unfolding_all decide) rfl

/-- C8 counterexample: the raw font name ABOLDC+Foo matches the bold regex
case-insensitively as a full (unstripped) name, yet the code derives the
weight normal, because the regex is tested against the stripped name Foo. -/
theorem fontWeight_unstripped_counterexample :
    boldKeywords.any (fun k => containsSubstring (jsToLower "ABOLDC+Foo") k) = true ∧
    resolveFontWeight "ABOLDC+Foo" = "normal" := by
  with_unfolding_all decide

/-- C8 (amended): the family is derived by stripping the subset prefix, taking
the segment before the first - or , and resolving it against the alias table;
the weight is bold exactly when the STRIPPED font name contains one of the
bold keywords case-insensitively.  In particular BAAAAA+ArialMT-Bold gives
family Arial and weight bold. -/
theorem font_resolution_spec :
    (∀ raw : String, resolveFontWeight raw = "bold" ↔
      ∃ k ∈ boldKeywords,
        containsSubstring (jsToLower (stripSubsetPrefix raw)) k = true) ∧
    resolveFontFamily "BAAAAA+ArialMT-Bold" = "Arial" ∧
    resolveFontWeight "BAAAAA+ArialMT-Bold" = "bold" := by
  refine ⟨?_, by with_unfolding_all decide, by with_unfolding_all decide⟩
  intro raw
  have key : resolveFontWeight raw = "bold" ↔
      (boldKeywords.any fun k =>
        containsSubstring (jsToLower (stripSubsetPrefix raw)) k) = true := by
    unfold resolveFontWeight
    by_cases h : (boldKeywords.any fun k =>
        containsSubstring (jsToLower (stripSubsetPrefix raw)) k) = true
    · simp [h]
    · simp only [if_neg h]
      constructor
      · intro hcontra
        exact absurd hcontra (by with_unfolding_all decide)
      · intro hcontra
        exact absurd hcontra h
  rw [key, List.any_eq_true]

/-- Witness for C8's amended statement: a stripped name containing bold. -/
theorem font_resolution_spec_witness :
    resolveFontWeight "Helvetica-Bold" = "bold" :=
  (font_resolution_spec.1 "Helvetica-Bold").mpr
    ⟨"bold", by with_unfolding_all decide, by with_unfolding_all decide⟩

/-- C9: rgbToHex maps both the 0-1-range triple (1, 0, 0) and the 0-255-range
triple (255, 0, 0) to ff0000; each channel above 1 is used as is and each
channel at most 1 is scaled by 255, then rounded, clamped to [0, 255] and
written as two lowercase hex digits; a missing or too-short color triple
falls back to the fixed dark gray. -/
theorem rgbToHex_spec :
    rgbToHex 1 0 0 = "#ff0000" ∧
    rgbToHex 255 0 0 = "#ff0000" ∧
    (∀ value : ℚ, toHexComponent value =
      twoDigitHex (max 0 (min 255 (jsRound (if value > 1 then value
        else value * 255)))).toNat) ∧
    extractFill none = COLOR_FALLBACK ∧
    (∀ cs : List ℚ, cs.length < 3 → extractFill (some cs) = COLOR_FALLBACK) := by
  refine ⟨by with_unfolding_all decide, by with_unfolding_all decide,
    fun value => rfl, rfl, ?_⟩
  intro cs hlen
  simp only [extractFill]
  rw [if_neg (by omega)]

/-- Witness for C9 at a two-entry color array. -/
theorem rgbToHex_spec_witness :
    ([(1 : ℚ), 0] : List ℚ).length < 3 ∧ extractFill (some [1, 0]) = COLOR_FALLBACK :=
  ⟨by simp, rgbToHex_spec.2.2.2.2 [1, 0] (by simp)⟩

/-- A parsed hexadecimal digit is below 16. -/
theorem hexDigitVal_lt (c : Char) (d : ℕ) (h : hexDigitVal c = some d) : d < 16 := by
  have h0 : Char.toNat '0' = 48 := rfl
  have h9 : Char.toNat '9' = 57 := rfl
  have ha : Char.toNat 'a' = 97 := rfl
  have hf : Char.toNat 'f' = 102 := rfl
  have hA : Char.toNat 'A' = 65 := rfl
  have hF : Char.toNat 'F' = 70 := rfl
  unfold hexDigitVal at h
  split_ifs at h with h1 h2 h3
  · obtain ⟨hl, hr⟩ := h1
    rw [Char.le_def] at hl hr
    have hl2 : Char.toNat '0' ≤ c.toNat := hl
    have hr2 : c.toNat ≤ Char.toNat '9' := hr
    have hd := Option.some.inj h
    omega
  · obtain ⟨hl, hr⟩ := h2
    rw [Char.le_def] at hl hr
    have hl2 : Char.toNat 'a' ≤ c.toNat := hl
    have hr2 : c.toNat ≤ Char.toNat 'f' := hr
    have hd := Option.some.inj h
    omega
  · obtain ⟨hl, hr⟩ := h3
    rw [Char.le_def] at hl hr
    have hl2 : Char.toNat 'A' ≤ c.toNat := hl
    have hr2 : c.toNat ≤ Char.toNat 'F' := hr
    have hd := Option.some.inj h
    omega

/-- parseSixHexChars fails exactly when the character list is not six
hexadecimal digits. -/
theorem parseSixHexChars_none_iff (cs : List Char) :
    parseSixHexChars cs = none ↔
      (decide (cs.length = 6) && cs.all (fun c => (hexDigitVal c).isSome)) = false := by
  rcases cs with _ | ⟨c1, _ | ⟨c2, _ | ⟨c3, _ | ⟨c4, _ | ⟨c5, _ | ⟨c6, _ | ⟨c7, rest⟩⟩⟩⟩⟩⟩⟩
  · simp [parseSixHexChars]
  · simp [parseSixHexChars]
  · simp [parseSixHexChars]
  · simp [parseSixHexChars]
  · simp [parseSixHexChars]
  · simp [parseSixHexChars]
  · rcases h1 : hexDigitVal c1 with _ | v1 <;>
      rcases h2 : hexDigitVal c2 with _ | v2 <;>
      rcases h3 : hexDigitVal c3 with _ | v3 <;>
      rcases h4 : hexDigitVal c4 with _ | v4 <;>
      rcases h5 : hexDigitVal c5 with _ | v5 <;>
      rcases h6 : hexDigitVal c6 with _ | v6 <;>
      simp [parseSixHexChars, h1, h2, h3, h4, h5, h6]
  · simp [parseSixHexChars]
    try omega

/-- A successfully parsed six-hex-digit value is below 2 to the 24. -/
theorem parseSixHexChars_lt (cs : List Char) (v : ℕ)
    (h : parseSixHexChars cs = some v) : v < 16777216 := by
  rcases cs with _ | ⟨c1, _ | ⟨c2, _ | ⟨c3, _ | ⟨c4, _ | ⟨c5, _ | ⟨c6, _ | ⟨c7, rest⟩⟩⟩⟩⟩⟩⟩
  · simp [parseSixHexChars] at h
  · simp [parseSixHexChars] at h
  · simp [parseSixHexChars] at h
  · simp [parseSixHexChars] at h
  · simp [parseSixHexChars] at h
  · simp [parseSixHexChars] at h
  · rcases h1 : hexDigitVal c1 with _ | v1 <;>
      rcases h2 : hexDigitVal c2 with _ | v2 <;>
      rcases h3 : hexDigitVal c3 with _ | v3 <;>
      rcases h4 : hexDigitVal c4 with _ | v4 <;>
      rcases h5 : hexDigitVal c5 with _ | v5 <;>
      rcases h6 : hexDigitVal c6 with _ | v6 <;>
      simp [parseSixHexChars, h1, h2, h3, h4, h5, h6] at h
    have b1 := hexDigitVal_lt c1 v1 h1
    have b2 := hexDigitVal_lt c2 v2 h2
    have b3 := hexDigitVal_lt c3 v3 h3
    have b4 := hexDigitVal_lt c4 v4 h4
    have b5 := hexDigitVal_lt c5 v5 h5
    have b6 := hexDigitVal_lt c6 v6 h6
    omega
  · simp [parseSixHexChars] at h

/-- The implementation's parse fails exactly on the strings the specification
calls invalid. -/
theorem parseSixHex_none_iff (t : String) :
    parseSixHex t = none ↔ isSixHexForm t = false := by
  unfold parseSixHex isSixHexForm
  exact parseSixHexChars_none_iff (stripHash t.toList)

/-- C10: hexToRgb maps undefined, null and every string whose trimmed form is
not six hexadecimal digits optionally preceded by a hash (empty strings,
3-digit shorthand, malformed strings) to black, and maps every valid string
to the color whose channels are the three hex byte values divided by 255, so
the drawn text color is always well defined. -/
theorem hexToRgb_spec :
    hexToRgb none = ⟨0, 0, 0⟩ ∧
    hexToRgb (some "") = ⟨0, 0, 0⟩ ∧
    hexToRgb (some "#fff") = ⟨0, 0, 0⟩ ∧
    hexToRgb (some " 12345g ") = ⟨0, 0, 0⟩ ∧
    (∀ s : String, isSixHexForm (jsTrim s) = false → hexToRgb (some s) = ⟨0, 0, 0⟩) ∧
    (∀ (s : String) (v : ℕ), parseSixHex (jsTrim s) = some v →
      v < 16777216 ∧
      hexToRgb (some s) = ⟨((v / 65536 % 256 : ℕ) : ℚ) / 255,
        ((v / 256 % 256 : ℕ) : ℚ) / 255, ((v % 256 : ℕ) : ℚ) / 255⟩) ∧
    hexToRgb (some "#ff0000") = ⟨1, 0, 0⟩ := by
  refine ⟨rfl, rfl, rfl, rfl, ?_, ?_, by with_unfolding_all decide⟩
  · intro s h
    have hnone : parseSixHex (jsTrim s) = none := (parseSixHex_none_iff _).mpr h
    simp [hexToRgb, hnone]
  · intro s v h
    refine ⟨parseSixHexChars_lt (stripHash (jsTrim s).toList) v h, ?_⟩
    simp [hexToRgb, h]

/-- Witness for C10 at an invalid and a valid fill string. -/
theorem hexToRgb_spec_witness :
    (isSixHexForm (jsTrim "zzz") = false ∧ hexToRgb (some "zzz") = ⟨0, 0, 0⟩) ∧
    (parseSixHex (jsTrim "a1b2c3") = some 10597059 ∧ 10597059 < 16777216 ∧
      hexToRgb (some "a1b2c3") = ⟨((10597059 / 65536 % 256 : ℕ) : ℚ) / 255,
        ((10597059 / 256 % 256 : ℕ) : ℚ) / 255, ((10597059 % 256 : ℕ) : ℚ) / 255⟩) :=
  ⟨⟨by decide, hexToRgb_spec.2.2.2.2.1 "zzz" (by decide)⟩,
   ⟨by decide,
    (hexToRgb_spec.2.2.2.2.2.1 "a1b2c3" 10597059 (by decide)).1,
    (hexToRgb_spec.2.2.2.2.2.1 "a1b2c3" 10597059 (by decide)).2⟩⟩

end PdfEditor




